import Mathlib

/-!
Verification development for the cargo-bundle package-assembly pipeline.

Shallow embedding of:
* `src/category.rs` — the category resolver (`Category::from_str`, the alias
  table `CATEGORY_STRINGS`, the canonical-name and taxonomy projections);
* `src/file.rs` — `resource_relpath`, `copy`, `copy_dir`;
* `src/bundle/linux/deb_bundle.rs` — `bundle_project`, `generate_control_file`.

Machine reals (`f64` in the source) are modelled by exact rationals `ℚ`;
filesystem paths are modelled by their parsed component lists, mirroring
`std::path::Components` on Unix syntax; the control file is modelled as the
sequence of lines passed to `writeln!`.
-/

namespace CargoBundle

/-- The closed category enumeration from `src/category.rs` (`enum Category`). -/
inductive Category
  | Business
  | DeveloperTool
  | Education
  | Entertainment
  | Finance
  | Game
  | ActionGame
  | AdventureGame
  | ArcadeGame
  | BoardGame
  | CardGame
  | CasinoGame
  | DiceGame
  | EducationalGame
  | FamilyGame
  | KidsGame
  | MusicGame
  | PuzzleGame
  | RacingGame
  | RolePlayingGame
  | SimulationGame
  | SportsGame
  | StrategyGame
  | TriviaGame
  | WordGame
  | GraphicsAndDesign
  | HealthcareAndFitness
  | Lifestyle
  | Medical
  | Music
  | News
  | Photography
  | Productivity
  | Reference
  | SocialNetworking
  | Sports
  | Travel
  | Utility
  | Video
  | Weather
  deriving DecidableEq, Repr

/-- `Category::canonical` — the display name recommended in a suggestion. -/
def canonical : Category → String
  | .Business => "Business"
  | .DeveloperTool => "Developer Tool"
  | .Education => "Education"
  | .Entertainment => "Entertainment"
  | .Finance => "Finance"
  | .Game => "Game"
  | .ActionGame => "Action Game"
  | .AdventureGame => "Adventure Game"
  | .ArcadeGame => "Arcade Game"
  | .BoardGame => "Board Game"
  | .CardGame => "Card Game"
  | .CasinoGame => "Casino Game"
  | .DiceGame => "Dice Game"
  | .EducationalGame => "Educational Game"
  | .FamilyGame => "Family Game"
  | .KidsGame => "Kids Game"
  | .MusicGame => "Music Game"
  | .PuzzleGame => "Puzzle Game"
  | .RacingGame => "Racing Game"
  | .RolePlayingGame => "Role-Playing Game"
  | .SimulationGame => "Simulation Game"
  | .SportsGame => "Sports Game"
  | .StrategyGame => "Strategy Game"
  | .TriviaGame => "Trivia Game"
  | .WordGame => "Word Game"
  | .GraphicsAndDesign => "Graphics and Design"
  | .HealthcareAndFitness => "Healthcare and Fitness"
  | .Lifestyle => "Lifestyle"
  | .Medical => "Medical"
  | .Music => "Music"
  | .News => "News"
  | .Photography => "Photography"
  | .Productivity => "Productivity"
  | .Reference => "Reference"
  | .SocialNetworking => "Social Networking"
  | .Sports => "Sports"
  | .Travel => "Travel"
  | .Utility => "Utility"
  | .Video => "Video"
  | .Weather => "Weather"

/-- `Category::osx_application_category_type` — the LSApplicationCategoryType
projection (the spec's platform-A taxonomy string). -/
def osx_application_category_type : Category → String
  | .Business => "public.app-category.business"
  | .DeveloperTool => "public.app-category.developer-tools"
  | .Education => "public.app-category.education"
  | .Entertainment => "public.app-category.entertainment"
  | .Finance => "public.app-category.finance"
  | .Game => "public.app-category.games"
  | .ActionGame => "public.app-category.action-games"
  | .AdventureGame => "public.app-category.adventure-games"
  | .ArcadeGame => "public.app-category.arcade-games"
  | .BoardGame => "public.app-category.board-games"
  | .CardGame => "public.app-category.card-games"
  | .CasinoGame => "public.app-category.casino-games"
  | .DiceGame => "public.app-category.dice-games"
  | .EducationalGame => "public.app-category.educational-games"
  | .FamilyGame => "public.app-category.family-games"
  | .KidsGame => "public.app-category.kids-games"
  | .MusicGame => "public.app-category.music-games"
  | .PuzzleGame => "public.app-category.puzzle-games"
  | .RacingGame => "public.app-category.racing-games"
  | .RolePlayingGame => "public.app-category.role-playing-games"
  | .SimulationGame => "public.app-category.simulation-games"
  | .SportsGame => "public.app-category.sports-games"
  | .StrategyGame => "public.app-category.strategy-games"
  | .TriviaGame => "public.app-category.trivia-games"
  | .WordGame => "public.app-category.word-games"
  | .GraphicsAndDesign => "public.app-category.graphics-design"
  | .HealthcareAndFitness => "public.app-category.healthcare-fitness"
  | .Lifestyle => "public.app-category.lifestyle"
  | .Medical => "public.app-category.medical"
  | .Music => "public.app-category.music"
  | .News => "public.app-category.news"
  | .Photography => "public.app-category.photography"
  | .Productivity => "public.app-category.productivity"
  | .Reference => "public.app-category.reference"
  | .SocialNetworking => "public.app-category.social-networking"
  | .Sports => "public.app-category.sports"
  | .Travel => "public.app-category.travel"
  | .Utility => "public.app-category.utilities"
  | .Video => "public.app-category.video"
  | .Weather => "public.app-category.weather"

set_option maxHeartbeats 1600000 in
/-- The static alias table `CATEGORY_STRINGS` from `src/category.rs`. -/
def CATEGORY_STRINGS : List (String × Category) :=
  [("actiongame", .ActionGame),
   ("actiongames", .ActionGame),
   ("adventuregame", .AdventureGame),
   ("adventuregames", .AdventureGame),
   ("arcadegame", .ArcadeGame),
   ("arcadegames", .ArcadeGame),
   ("boardgame", .BoardGame),
   ("boardgames", .BoardGame),
   ("business", .Business),
   ("cardgame", .CardGame),
   ("cardgames", .CardGame),
   ("casinogame", .CasinoGame),
   ("casinogames", .CasinoGame),
   ("developer", .DeveloperTool),
   ("developertool", .DeveloperTool),
   ("developertools", .DeveloperTool),
   ("development", .DeveloperTool),
   ("dicegame", .DiceGame),
   ("dicegames", .DiceGame),
   ("education", .Education),
   ("educationalgame", .EducationalGame),
   ("educationalgames", .EducationalGame),
   ("entertainment", .Entertainment),
   ("familygame", .FamilyGame),
   ("familygames", .FamilyGame),
   ("finance", .Finance),
   ("fitness", .HealthcareAndFitness),
   ("game", .Game),
   ("games", .Game),
   ("graphicdesign", .GraphicsAndDesign),
   ("graphicsanddesign", .GraphicsAndDesign),
   ("graphicsdesign", .GraphicsAndDesign),
   ("healthcareandfitness", .HealthcareAndFitness),
   ("healthcarefitness", .HealthcareAndFitness),
   ("kidsgame", .KidsGame),
   ("kidsgames", .KidsGame),
   ("lifestyle", .Lifestyle),
   ("logicgame", .PuzzleGame),
   ("medical", .Medical),
   ("medicalsoftware", .Medical),
   ("music", .Music),
   ("musicgame", .MusicGame),
   ("musicgames", .MusicGame),
   ("news", .News),
   ("photography", .Photography),
   ("productivity", .Productivity),
   ("puzzlegame", .PuzzleGame),
   ("puzzlegames", .PuzzleGame),
   ("racinggame", .RacingGame),
   ("racinggames", .RacingGame),
   ("reference", .Reference),
   ("roleplaying", .RolePlayingGame),
   ("roleplayinggame", .RolePlayingGame),
   ("roleplayinggames", .RolePlayingGame),
   ("rpg", .RolePlayingGame),
   ("simulationgame", .SimulationGame),
   ("simulationgames", .SimulationGame),
   ("socialnetwork", .SocialNetworking),
   ("socialnetworking", .SocialNetworking),
   ("sports", .Sports),
   ("sportsgame", .SportsGame),
   ("sportsgames", .SportsGame),
   ("strategygame", .StrategyGame),
   ("strategygames", .StrategyGame),
   ("travel", .Travel),
   ("triviagame", .TriviaGame),
   ("triviagames", .TriviaGame),
   ("utilities", .Utility),
   ("utility", .Utility),
   ("video", .Video),
   ("weather", .Weather),
   ("wordgame", .WordGame),
   ("wordgames", .WordGame)]

/-- `CONFIDENCE_THRESHOLD` (0.8 in the source), as an exact rational. -/
def CONFIDENCE_THRESHOLD : ℚ := 4 / 5

/-- State of the matching loop of the Jaro similarity computation. -/
structure JaroState where
  consumed : List Bool
  matched : Nat
  transpositions : Nat
  b_match_index : Nat
  deriving Repr

/-- Inner loop of the Jaro match search: first index `j` (counting from the
given start) with `lo ≤ j ≤ hi`, `b[j] = aElem` and `b[j]` not yet consumed. -/
def find_match (aElem : Char) : List Char → List Bool → Nat → Nat → Nat → Option Nat
  | [], _, _, _, _ => none
  | _ :: _, [], _, _, _ => none
  | bc :: brest, used :: urest, j, lo, hi =>
    if lo ≤ j ∧ j ≤ hi ∧ bc = aElem ∧ used = false then some j
    else find_match aElem brest urest (j + 1) lo hi

/-- Outer loop of the Jaro similarity: walks the characters of `a`,
greedily matching each within the search window of `b`. -/
def jaroLoop (b : List Char) (sr : Nat) : List Char → Nat → JaroState → JaroState
  | [], _, st => st
  | ac :: arest, i, st =>
    let lo := if i > sr then i - sr else 0
    let hi := min (b.length - 1) (i + sr)
    let st2 :=
      if lo > hi then st
      else
        match find_match ac b st.consumed 0 lo hi with
        | none => st
        | some j =>
          { consumed := st.consumed.set j true
            matched := st.matched + 1
            transpositions :=
              if j < st.b_match_index then st.transpositions + 1 else st.transpositions
            b_match_index := j }
    jaroLoop b sr arest (i + 1) st2

/-- Modelled from the spec: the Jaro similarity of the `strsim` dependency
(`strsim::generic_jaro`; the crate is outside the repository). Machine
floating point is modelled by exact rational arithmetic. -/
def jaro (a b : List Char) : ℚ :=
  if a.length = 0 ∧ b.length = 0 then 1
  else if a.length = 0 ∨ b.length = 0 then 0
  else if a.length = 1 ∧ b.length = 1 then (if a = b then 1 else 0)
  else
    let sr := max a.length b.length / 2 - 1
    let st := jaroLoop b sr a 0 ⟨List.replicate b.length false, 0, 0, 0⟩
    if st.matched = 0 then 0
    else (1 / 3 : ℚ) *
      ((st.matched : ℚ) / (a.length : ℚ) + (st.matched : ℚ) / (b.length : ℚ)
        + ((st.matched : ℚ) - (st.transpositions : ℚ)) / (st.matched : ℚ))

/-- Length of the common prefix of two character lists. -/
def common_pfx_len : List Char → List Char → Nat
  | a :: as2, b :: bs2 => if a = b then common_pfx_len as2 bs2 + 1 else 0
  | _, _ => 0

/-- Modelled from the spec: `strsim::jaro_winkler` (Jaro-Winkler class metric
weighting shared prefixes), the string-similarity score used by the resolver. -/
def jaro_winkler (a b : String) : ℚ :=
  let jd := jaro a.toList b.toList
  min (jd + (1 / 10 : ℚ) * (common_pfx_len a.toList b.toList : ℚ) * (1 - jd)) 1

/-- Rust `u8::to_ascii_lowercase`, on a character. -/
def to_ascii_lower_char (c : Char) : Char :=
  if 'A' ≤ c ∧ c ≤ 'Z' then Char.ofNat (c.toNat + 32) else c

/-- The characters of `OSX_APP_CATEGORY_PREFIX` (`"public.app-category."`). -/
def osx_app_category_pfx : List Char := "public.app-category.".toList

/-- The canonicalization applied by `Category::from_str` before table lookup:
ASCII-lowercase, strip the macOS taxonomy lead-in if present, then delete
every space and hyphen. -/
def canonicalize (input : String) : String :=
  let l := input.toList.map to_ascii_lower_char
  let l := if osx_app_category_pfx.isPrefixOf l then l.drop osx_app_category_pfx.length else l
  ⟨l.filter (fun c => ¬(c = ' ' ∨ c = '-'))⟩

/-- The scanning loop of `Category::from_str`: exact match returns
immediately; otherwise the best fuzzy score at or above the threshold is
tracked and reported as a suggestion at the end. -/
def fromStrLoop (input : String) :
    List (String × Category) → ℚ → Option Category → Except (Option String) Category
  | [], _, bestCat => .error (bestCat.map canonical)
  | p :: rest, bestConf, bestCat =>
    if input = p.1 then .ok p.2
    else
      let confidence := jaro_winkler input p.1
      if confidence ≥ CONFIDENCE_THRESHOLD ∧ confidence > bestConf then
        fromStrLoop input rest confidence (some p.2)
      else
        fromStrLoop input rest bestConf bestCat

/-- `Category::from_str` from `src/category.rs`. -/
def from_str (input : String) : Except (Option String) Category :=
  fromStrLoop (canonicalize input) CATEGORY_STRINGS 0 none

deriving instance DecidableEq for Except

/-- The pure accumulator fold underlying the fuzzy-suggestion tracking of
`Category::from_str` (best confidence so far, best category so far). -/
def fuzzyFold (input : String) :
    List (String × Category) → ℚ × Option Category → ℚ × Option Category
  | [], acc => acc
  | p :: rest, acc =>
    let confidence := jaro_winkler input p.1
    if confidence ≥ CONFIDENCE_THRESHOLD ∧ confidence > acc.1 then
      fuzzyFold input rest (confidence, some p.2)
    else
      fuzzyFold input rest acc

theorem fromStrLoop_ok_of_mem (input : String) (c : Category) :
    ∀ (l : List (String × Category)) (conf : ℚ) (cat : Option Category),
      (input, c) ∈ l → (∀ q ∈ l, q.1 = input → q.2 = c) →
      fromStrLoop input l conf cat = .ok c := by
  intro l
  induction l with
  | nil => intro conf cat h _; simp at h
  | cons p rest ih =>
    intro conf cat hmem huniq
    by_cases he : input = p.1
    · have hc : p.2 = c := huniq p (List.mem_cons_self p rest) he.symm
      simp [fromStrLoop, he, hc]
    · have hmem2 : (input, c) ∈ rest := by
        rcases List.mem_cons.mp hmem with h | h
        · exact absurd (show input = p.1 by rw [← h]) he
        · exact h
      have huniq2 : ∀ q ∈ rest, q.1 = input → q.2 = c :=
        fun q hq => huniq q (List.mem_cons_of_mem p hq)
      simp only [fromStrLoop, if_neg he]
      split
      · exact ih _ _ hmem2 huniq2
      · exact ih _ _ hmem2 huniq2

theorem fromStrLoop_eq_fuzzyFold (input : String) :
    ∀ (l : List (String × Category)) (conf : ℚ) (cat : Option Category),
      (∀ p ∈ l, input ≠ p.1) →
      fromStrLoop input l conf cat = .error ((fuzzyFold input l (conf, cat)).2.map canonical) := by
  intro l
  induction l with
  | nil => intro conf cat _; rfl
  | cons p rest ih =>
    intro conf cat hne
    have hp : input ≠ p.1 := hne p (List.mem_cons_self p rest)
    have hrest : ∀ q ∈ rest, input ≠ q.1 := fun q hq => hne q (List.mem_cons_of_mem p hq)
    simp only [fromStrLoop, fuzzyFold, if_neg hp]
    split
    · exact ih _ _ hrest
    · exact ih _ _ hrest

theorem fuzzyFold_snd_some (input : String) :
    ∀ (l : List (String × Category)) (conf : ℚ) (c : Category),
      (fuzzyFold input l (conf, some c)).2 ≠ none := by
  intro l
  induction l with
  | nil => intro conf c h; simp [fuzzyFold] at h
  | cons p rest ih =>
    intro conf c
    simp only [fuzzyFold]
    split
    · exact ih _ _
    · exact ih _ _

theorem fuzzyFold_none_iff (input : String) :
    ∀ (l : List (String × Category)) (conf : ℚ) (cat : Option Category),
      ((fuzzyFold input l (conf, cat)).2 = none ↔
        (cat = none ∧ ∀ p ∈ l,
          ¬(jaro_winkler input p.1 ≥ CONFIDENCE_THRESHOLD ∧ jaro_winkler input p.1 > conf))) := by
  intro l
  induction l with
  | nil => intro conf cat; simp [fuzzyFold]
  | cons p rest ih =>
    intro conf cat
    simp only [fuzzyFold]
    split
    · rename_i htrig
      constructor
      · intro h
        exact absurd h (fuzzyFold_snd_some input rest _ _)
      · intro h
        exact absurd htrig (h.2 p (List.mem_cons_self p rest))
    · rename_i htrig
      rw [ih]
      constructor
      · rintro ⟨hcat, hrest⟩
        refine ⟨hcat, ?_⟩
        intro q hq
        rcases List.mem_cons.mp hq with h | h
        · subst h; exact htrig
        · exact hrest q h
      · rintro ⟨hcat, hall⟩
        exact ⟨hcat, fun q hq => hall q (List.mem_cons_of_mem p hq)⟩

theorem fuzzyFold_spec (input : String) :
    ∀ (l : List (String × Category)) (conf : ℚ) (cat : Option Category),
      conf ≤ (fuzzyFold input l (conf, cat)).1 ∧
      (∀ q ∈ l, jaro_winkler input q.1 ≥ CONFIDENCE_THRESHOLD →
        jaro_winkler input q.1 ≤ (fuzzyFold input l (conf, cat)).1) ∧
      (((fuzzyFold input l (conf, cat)).2 = cat ∧ (fuzzyFold input l (conf, cat)).1 = conf) ∨
        (∃ p ∈ l, (fuzzyFold input l (conf, cat)).2 = some p.2 ∧
          (fuzzyFold input l (conf, cat)).1 = jaro_winkler input p.1 ∧
          CONFIDENCE_THRESHOLD ≤ (fuzzyFold input l (conf, cat)).1)) := by
  intro l
  induction l with
  | nil => intro conf cat; refine ⟨le_refl _, ?_, Or.inl ⟨rfl, rfl⟩⟩; intro q hq; simp at hq
  | cons p rest ih =>
    intro conf cat
    simp only [fuzzyFold]
    split
    · rename_i htrig
      obtain ⟨hle, hbound, hcases⟩ := ih (jaro_winkler input p.1) (some p.2)
      have hconf : conf ≤ (fuzzyFold input rest (jaro_winkler input p.1, some p.2)).1 :=
        le_trans (le_of_lt htrig.2) hle
      refine ⟨hconf, ?_, ?_⟩
      · intro q hq hth
        rcases List.mem_cons.mp hq with h | h
        · subst h; exact hle
        · exact hbound q h hth
      · rcases hcases with ⟨h2, h1⟩ | ⟨q, hq, h2, h1, hth⟩
        · exact Or.inr ⟨p, List.mem_cons_self p rest, h2, h1, by rw [h1]; exact htrig.1⟩
        · exact Or.inr ⟨q, List.mem_cons_of_mem p hq, h2, h1, hth⟩
    · rename_i htrig
      obtain ⟨hle, hbound, hcases⟩ := ih conf cat
      refine ⟨hle, ?_, ?_⟩
      · intro q hq hth
        rcases List.mem_cons.mp hq with h | h
        · subst h
          have : jaro_winkler input q.1 ≤ conf := by
            by_contra hgt
            exact htrig ⟨hth, lt_of_not_le hgt⟩
          exact le_trans this hle
        · exact hbound q h hth
      · rcases hcases with ⟨h2, h1⟩ | ⟨q, hq, h2, h1, hth⟩
        · exact Or.inl ⟨h2, h1⟩
        · exact Or.inr ⟨q, List.mem_cons_of_mem p hq, h2, h1, hth⟩

set_option maxRecDepth 60000 in
theorem table_functional :
    ∀ p ∈ CATEGORY_STRINGS, ∀ q ∈ CATEGORY_STRINGS, q.1 = p.1 → q.2 = p.2 := by decide

set_option maxRecDepth 60000 in
theorem table_keys_canonical : ∀ p ∈ CATEGORY_STRINGS, canonicalize p.1 = p.1 := by decide

theorem threshold_pos : (0 : ℚ) < CONFIDENCE_THRESHOLD := by
  norm_num [CONFIDENCE_THRESHOLD]

/-- C2: every (alias, category) pair of the static table resolves by exact
match: `from_str alias` returns that category, never a fuzzy near-miss. -/
theorem C2_exact_alias_never_shadowed (p : String × Category) (hp : p ∈ CATEGORY_STRINGS) :
    from_str p.1 = .ok p.2 := by
  obtain ⟨s, c⟩ := p
  unfold from_str
  rw [table_keys_canonical (s, c) hp]
  exact fromStrLoop_ok_of_mem s c CATEGORY_STRINGS 0 none hp
    (fun q hq he => table_functional (s, c) hp q hq he)

theorem C2_exact_alias_never_shadowed_witness : from_str "rpg" = .ok Category.RolePlayingGame :=
  C2_exact_alias_never_shadowed ("rpg", Category.RolePlayingGame) (by decide)

/-- C4: feeding any category's LSApplicationCategoryType projection back into
the resolver round-trips to the same category. -/
theorem C4_platform_a_round_trip (c : Category) :
    from_str (osx_application_category_type c) = .ok c := by
  have key : ∀ k : String, canonicalize (osx_application_category_type c) = k →
      (k, c) ∈ CATEGORY_STRINGS → from_str (osx_application_category_type c) = .ok c := by
    intro k hk hm
    unfold from_str
    rw [hk]
    exact fromStrLoop_ok_of_mem k c CATEGORY_STRINGS 0 none hm
      (fun q hq he => table_functional (k, c) hm q hq he)
  cases c
  all_goals exact key _ rfl (by decide)

/-- C3: when no table key matches the canonicalized input exactly, the
resolver fails; the failure carries no suggestion exactly when every key
scores below the 0.8 threshold, and otherwise carries the canonical display
name of a best-scoring key (which scores at least the threshold); in
particular resolving "gaming" fails suggesting "Game" and resolving
"fhqwhgads" fails with no suggestion. -/
theorem C3_fuzzy_suggestion_iff_threshold :
    (∀ input : String, (∀ p ∈ CATEGORY_STRINGS, canonicalize input ≠ p.1) →
      ((from_str input = .error none ↔
          ∀ p ∈ CATEGORY_STRINGS,
            jaro_winkler (canonicalize input) p.1 < CONFIDENCE_THRESHOLD) ∧
        (∀ nm : String, from_str input = .error (some nm) →
          ∃ p ∈ CATEGORY_STRINGS, nm = canonical p.2 ∧
            CONFIDENCE_THRESHOLD ≤ jaro_winkler (canonicalize input) p.1 ∧
            ∀ q ∈ CATEGORY_STRINGS,
              jaro_winkler (canonicalize input) q.1 ≤
                jaro_winkler (canonicalize input) p.1))) ∧
    from_str "gaming" = .error (some "Game") ∧
    from_str "fhqwhgads" = .error none := by
  refine ⟨?_, ?_, ?_⟩
  · intro input hne
    have herr := fromStrLoop_eq_fuzzyFold (canonicalize input) CATEGORY_STRINGS 0 none
      (fun p hp => hne p hp)
    have hiff := fuzzyFold_none_iff (canonicalize input) CATEGORY_STRINGS 0 none
    constructor
    · rw [from_str, herr]
      simp only [Except.error.injEq, Option.map_eq_none']
      rw [hiff]
      constructor
      · intro h p hp
        by_contra hge
        push_neg at hge
        exact h.2 p hp ⟨hge, lt_of_lt_of_le threshold_pos hge⟩
      · intro hall
        exact ⟨rfl, fun p hp hcontra => absurd hcontra.1 (not_le.mpr (hall p hp))⟩
    · intro nm hnm
      rw [from_str, herr] at hnm
      simp only [Except.error.injEq, Option.map_eq_some'] at hnm
      rcases hnm with ⟨c, hc, hcan⟩
      obtain ⟨hle, hbound, hcases⟩ :=
        fuzzyFold_spec (canonicalize input) CATEGORY_STRINGS 0 none
      rcases hcases with ⟨hcat, _⟩ | ⟨p, hp, hsome, hval, hth⟩
      · rw [hcat] at hc
        exact absurd hc (by simp)
      · have hcp : c = p.2 := by
          rw [hsome] at hc
          exact ((Option.some.injEq _ _).mp hc).symm
        refine ⟨p, hp, ?_, ?_, ?_⟩
        · rw [← hcan, hcp]
        · rw [← hval]; exact hth
        · intro q hq
          by_cases hq8 : CONFIDENCE_THRESHOLD ≤ jaro_winkler (canonicalize input) q.1
          · rw [← hval]; exact hbound q hq hq8
          · push_neg at hq8
            rw [← hval]
            exact le_trans (le_of_lt hq8) hth
  · set_option maxRecDepth 100000 in with_unfolding_all decide
  · set_option maxRecDepth 100000 in with_unfolding_all decide

theorem C3_fuzzy_suggestion_iff_threshold_witness :
    from_str "fhqwhgads" = .error none ↔
      ∀ p ∈ CATEGORY_STRINGS,
        jaro_winkler (canonicalize "fhqwhgads") p.1 < CONFIDENCE_THRESHOLD :=
  (C3_fuzzy_suggestion_iff_threshold.1 "fhqwhgads" (by decide)).1

end CargoBundle

namespace CargoBundle

/-- Path components, mirroring std::path::Component on Unix syntax (the
Windows prefix variant is kept only for the match arm that skips it). -/
inductive PathComponent
  | winPfx (s : String)
  | root_dir
  | cur_dir
  | parent_dir
  | normal (s : String)
  deriving DecidableEq, Repr

/-- `file::resource_relpath` from `src/file.rs`: the path normalizer. -/
def resource_relpath : List PathComponent → List String
  | [] => []
  | .winPfx _ :: rest => resource_relpath rest
  | .root_dir :: rest => "_root_" :: resource_relpath rest
  | .cur_dir :: rest => resource_relpath rest
  | .parent_dir :: rest => "_up_" :: resource_relpath rest
  | .normal s :: rest => s :: resource_relpath rest

/-- Classification of one path segment, as in std::path components. -/
def seg_to_component (seg : String) : PathComponent :=
  if seg = ".." then .parent_dir
  else if seg = "." then .cur_dir
  else .normal seg

/-- Splits a character list at every slash, yielding the raw segments. -/
def split_segs : List Char → List Char → List String
  | [], acc => [⟨acc.reverse⟩]
  | c :: rest, acc =>
    if c = '/' then ⟨acc.reverse⟩ :: split_segs rest []
    else split_segs rest (c :: acc)

/-- True when the path string starts with a root separator. -/
def has_root_slash (s : String) : Bool :=
  match s.toList with
  | c :: _ => c = '/'
  | [] => false

/-- The non-root components of a path string: empty segments (from repeated
or trailing separators) are dropped, the rest classified. -/
def parse_segs (s : String) : List PathComponent :=
  ((split_segs s.toList []).filter (fun t => ¬t.isEmpty)).map seg_to_component

/-- Parsing of a Unix path string into components, mirroring
std::path::Path::components: current-directory segments are normalized away
except a leading one on a relative path. -/
def parse_path (s : String) : List PathComponent :=
  if has_root_slash s then
    .root_dir :: (parse_segs s).filter (fun c => c ≠ .cur_dir)
  else
    match parse_segs s with
    | .cur_dir :: rest => .cur_dir :: rest.filter (fun c => c ≠ .cur_dir)
    | comps => comps.filter (fun c => c ≠ .cur_dir)

/-- Components that survive normalization (everything except current-dir
markers and Windows prefixes, both of which the normalizer drops). -/
def significant : PathComponent → Bool
  | .cur_dir => false
  | .winPfx _ => false
  | _ => true

/-- Decodes one normalized output segment back into the component it came
from, provided the input contained no literal sentinel segments. -/
def decode_seg (t : String) : PathComponent :=
  if t = "_root_" then .root_dir
  else if t = "_up_" then .parent_dir
  else .normal t

/-- Denotation of a component list: the file it names, as an absolute
segment stack, when resolved from the working directory `cwd`. -/
def interpret (cwd : List String) : List PathComponent → List String
  | [] => cwd
  | .winPfx _ :: rest => interpret cwd rest
  | .root_dir :: rest => interpret [] rest
  | .cur_dir :: rest => interpret cwd rest
  | .parent_dir :: rest => interpret cwd.dropLast rest
  | .normal s :: rest => interpret (cwd ++ [s]) rest

theorem resource_relpath_no_dotdot :
    ∀ comps : List PathComponent,
      (∀ t, PathComponent.normal t ∈ comps → t ≠ "..") →
      ".." ∉ resource_relpath comps := by
  intro comps
  induction comps with
  | nil => intro _ h; simp [resource_relpath] at h
  | cons c rest ih =>
    intro hno
    have hrest : ∀ t, PathComponent.normal t ∈ rest → t ≠ ".." :=
      fun t ht => hno t (List.mem_cons_of_mem c ht)
    cases c with
    | winPfx s => exact ih hrest
    | root_dir =>
      intro hmem
      rcases List.mem_cons.mp hmem with h | h
      · exact absurd h.symm (by decide)
      · exact ih hrest h
    | cur_dir => exact ih hrest
    | parent_dir =>
      intro hmem
      rcases List.mem_cons.mp hmem with h | h
      · exact absurd h.symm (by decide)
      · exact ih hrest h
    | normal s =>
      intro hmem
      rcases List.mem_cons.mp hmem with h | h
      · exact hno s (List.mem_cons_self _ _) (h ▸ rfl)
      · exact ih hrest h

theorem parse_segs_normal_ne_dotdot (s : String) :
    ∀ t, PathComponent.normal t ∈ parse_segs s → t ≠ ".." := by
  intro t hl
  rcases List.mem_map.mp hl with ⟨seg, _, hseg⟩
  intro ht
  subst ht
  by_cases h1 : seg = ".."
  · simp [seg_to_component, h1] at hseg
  · by_cases h2 : seg = "."
    · simp [seg_to_component, h1, h2] at hseg
    · simp [seg_to_component, h1, h2] at hseg

theorem parse_path_subset (s : String) :
    ∀ c ∈ parse_path s, c = PathComponent.root_dir ∨ c ∈ parse_segs s := by
  intro c hc
  unfold parse_path at hc
  split at hc
  · rcases List.mem_cons.mp hc with h | h
    · exact Or.inl h
    · exact Or.inr (List.mem_filter.mp h).1
  · split at hc
    · rename_i rest heq
      rcases List.mem_cons.mp hc with h | h
      · exact Or.inr (by rw [heq, h]; exact List.mem_cons_self _ _)
      · exact Or.inr (by rw [heq]; exact List.mem_cons_of_mem _ (List.mem_filter.mp h).1)
    · exact Or.inr (List.mem_filter.mp hc).1

/-- C5: the path normalizer is a total function over parsed paths whose
output never contains a parent-reference segment, and it maps the three
specified example paths to the specified normalized forms. -/
theorem C5_normalizer_total_no_escape :
    (∀ s : String, ".." ∉ resource_relpath (parse_path s)) ∧
    String.intercalate "/" (resource_relpath (parse_path "./a/b")) = "a/b" ∧
    String.intercalate "/" (resource_relpath (parse_path "../../x")) = "_up_/_up_/x" ∧
    String.intercalate "/" (resource_relpath (parse_path "/a/b")) = "_root_/a/b" := by
  refine ⟨?_, by decide, by decide, by decide⟩
  intro s
  refine resource_relpath_no_dotdot (parse_path s) ?_
  intro t ht
  rcases parse_path_subset s (PathComponent.normal t) ht with h | h
  · exact PathComponent.noConfusion h
  · exact parse_segs_normal_ne_dotdot s t h

theorem relpath_decode :
    ∀ comps : List PathComponent,
      (∀ c ∈ comps, c ≠ PathComponent.normal "_root_" ∧ c ≠ PathComponent.normal "_up_") →
      (resource_relpath comps).map decode_seg = comps.filter significant := by
  intro comps
  induction comps with
  | nil => intro _; rfl
  | cons c rest ih =>
    intro hno
    have hrest : ∀ c ∈ rest, c ≠ PathComponent.normal "_root_" ∧ c ≠ PathComponent.normal "_up_" :=
      fun x hx => hno x (List.mem_cons_of_mem c hx)
    have hhead := hno c (List.mem_cons_self c rest)
    cases c with
    | winPfx s => simpa [resource_relpath, significant] using ih hrest
    | root_dir =>
      simpa [resource_relpath, significant, decode_seg] using ih hrest
    | cur_dir => simpa [resource_relpath, significant] using ih hrest
    | parent_dir =>
      simpa [resource_relpath, significant, decode_seg] using ih hrest
    | normal s =>
      have h1 : s ≠ "_root_" := by
        intro h; exact hhead.1 (by rw [h])
      have h2 : s ≠ "_up_" := by
        intro h; exact hhead.2 (by rw [h])
      simpa [resource_relpath, significant, decode_seg, h1, h2] using ih hrest

theorem interpret_filter :
    ∀ (comps : List PathComponent) (cwd : List String),
      interpret cwd comps = interpret cwd (comps.filter significant) := by
  intro comps
  induction comps with
  | nil => intro _; rfl
  | cons c rest ih =>
    intro cwd
    cases c with
    | winPfx s => simpa [interpret, significant] using ih cwd
    | root_dir => simpa [interpret, significant] using ih []
    | cur_dir => simpa [interpret, significant] using ih cwd
    | parent_dir => simpa [interpret, significant] using ih cwd.dropLast
    | normal s => simpa [interpret, significant] using ih (cwd ++ [s])

/-- C6 counterexample: the relative path with a parent reference and the
relative path through a literal directory named the same as the parent
sentinel denote different files yet normalize identically. -/
theorem C6_meaning_injectivity_counterexample :
    interpret ["home", "user"] (parse_path "../x") ≠
      interpret ["home", "user"] (parse_path "_up_/x") ∧
    parse_path "../x" ≠ parse_path "_up_/x" ∧
    resource_relpath (parse_path "../x") = resource_relpath (parse_path "_up_/x") := by
  refine ⟨by decide, by decide, by decide⟩

/-- C6 (amended): on inputs containing no literal sentinel segments, the
normalizer is injective on path meaning — equal normalized outputs force
equal denotations from every working directory. -/
theorem C6_injective_without_sentinel_segments (s1 s2 : String) (cwd : List String)
    (h1 : ∀ c ∈ parse_path s1,
      c ≠ PathComponent.normal "_root_" ∧ c ≠ PathComponent.normal "_up_")
    (h2 : ∀ c ∈ parse_path s2,
      c ≠ PathComponent.normal "_root_" ∧ c ≠ PathComponent.normal "_up_")
    (heq : resource_relpath (parse_path s1) = resource_relpath (parse_path s2)) :
    interpret cwd (parse_path s1) = interpret cwd (parse_path s2) := by
  have e1 := relpath_decode (parse_path s1) h1
  have e2 := relpath_decode (parse_path s2) h2
  have hf : (parse_path s1).filter significant = (parse_path s2).filter significant := by
    rw [← e1, ← e2, heq]
  rw [interpret_filter, hf, ← interpret_filter]

theorem C6_injective_without_sentinel_segments_witness :
    interpret ["w"] (parse_path "./a/b") = interpret ["w"] (parse_path "a/./b") :=
  C6_injective_without_sentinel_segments "./a/b" "a/./b" ["w"]
    (by decide) (by decide) (by decide)

end CargoBundle

namespace CargoBundle

/-- A filesystem subtree: regular file, symbolic link (unresolved target
string), or directory with named children in directory order. -/
inductive Node
  | file (data : String)
  | symlink (target : String)
  | dir (entries : List (String × Node))

/-- What one walked directory entry is. -/
inductive EntryKind
  | file (data : String)
  | symlink (target : String)
  | dir
  deriving DecidableEq, Repr

mutual

/-- The deterministic recursive walk of a subtree, as walkdir yields it:
the entry itself first, then the children in order (symbolic links are not
followed). -/
def walkNode : Node → List String → List (List String × EntryKind)
  | .file d, p => [(p, .file d)]
  | .symlink t, p => [(p, .symlink t)]
  | .dir es, p => (p, .dir) :: walkEntries es p

/-- Walks a list of named children below the given relative path. -/
def walkEntries : List (String × Node) → List String → List (List String × EntryKind)
  | [], _ => []
  | (name, n) :: rest, p => walkNode n (p ++ [name]) ++ walkEntries rest p

end

/-- Whether the destination already has an entry at the given relative
path. -/
def occupied (dst : List (List String × EntryKind)) (p : List String) : Bool :=
  dst.any (fun e => e.1 = p)

/-- Replication of one walked entry at the destination: directories via
create_dir (fails when the path exists), regular files via fs::copy
(overwrites), symbolic links via symlink (fails when the path exists),
preserving the target string verbatim. -/
def apply_entry (dst : List (List String × EntryKind)) (e : List String × EntryKind) :
    Except String (List (List String × EntryKind)) :=
  match e.2 with
  | .dir =>
    if occupied dst e.1 then .error "create_dir: destination already exists"
    else .ok (dst ++ [e])
  | .file _ =>
    if occupied dst e.1 then .ok (dst.map (fun x => if x.1 = e.1 then e else x))
    else .ok (dst ++ [e])
  | .symlink _ =>
    if occupied dst e.1 then .error "symlink: destination already exists"
    else .ok (dst ++ [e])

/-- Sequential replication of the walked entries into the destination. -/
def run_entries (dst : List (List String × EntryKind)) :
    List (List String × EntryKind) → Except String (List (List String × EntryKind))
  | [] => .ok dst
  | e :: rest =>
    match apply_entry dst e with
    | .error msg => .error msg
    | .ok dst2 => run_entries dst2 rest

/-- Result of a file-transfer call: success, a recoverable error (the
interface's Result), or a Rust panic. -/
inductive FsOutcome (α : Type)
  | ok (a : α)
  | ioError (msg : String)
  | panicked (msg : String)
  deriving DecidableEq, Repr

/-- Rust Path::parent on a component list: drops the final component, and is
None when the path is empty or terminates in a root or prefix. -/
def path_parent (p : List PathComponent) : Option (List PathComponent) :=
  match p.getLast? with
  | none => none
  | some .root_dir => none
  | some (.winPfx _) => none
  | some _ => some p.dropLast

/-- `file::copy` from `src/file.rs`: the destination parent is taken with
expect (a panic when absent), ancestors are created, then fs::copy runs
(failing when the source is missing or is a directory). -/
def copy (src_exists src_is_dir : Bool) (dst : List PathComponent) : FsOutcome Unit :=
  match path_parent dst with
  | none => .panicked "Destination should have a parent directory"
  | some _ =>
    if src_exists = false then .ioError "fs::copy: source not found"
    else if src_is_dir then .ioError "fs::copy: source is a directory"
    else .ok ()

/-- `file::copy_dir` from `src/file.rs`: the destination parent is taken
with expect (a panic when absent), ancestors are created, then the walkdir
traversal of the source is replicated entry by entry; a missing source
fails at the first walkdir entry. -/
def copy_dir (src : Option Node) (dst : List PathComponent) (dst_exists : Bool) :
    FsOutcome (List (List String × EntryKind)) :=
  match path_parent dst with
  | none => .panicked "Destination should have a parent directory"
  | some _ =>
    match src with
    | none => .ioError "walkdir: source does not exist"
    | some n =>
      match run_entries (if dst_exists then [([], EntryKind.dir)] else []) (walkNode n []) with
      | .error msg => .ioError msg
      | .ok m => .ok m

/-- The sample source tree used to exercise copy_dir: a directory holding a
subdirectory with a file, and a symbolic link. -/
def sampleTree : Node :=
  .dir [("sub", .dir [("file.txt", .file "Hello, world!\n")]),
        ("link", .symlink "sub/file.txt")]

end CargoBundle

namespace CargoBundle

/-- C9: copy_dir fails on a missing source and fails on an existing
destination when the source is a directory, and on success it replicates
the walked tree in order — directories as directories, the file's bytes
unchanged, the symbolic-link target string verbatim; but for a regular-file
source it succeeds and copies the file, instead of failing as the
documented contract requires. -/
theorem C9_copy_dir_contract_and_file_src_bug :
    copy_dir none [PathComponent.root_dir, PathComponent.normal "tmp", PathComponent.normal "dst"]
        false = .ioError "walkdir: source does not exist" ∧
    copy_dir (some sampleTree)
        [PathComponent.root_dir, PathComponent.normal "tmp", PathComponent.normal "dst"]
        true = .ioError "create_dir: destination already exists" ∧
    copy_dir (some sampleTree)
        [PathComponent.root_dir, PathComponent.normal "tmp", PathComponent.normal "dst"]
        false = .ok
          [([], .dir), (["sub"], .dir), (["sub", "file.txt"], .file "Hello, world!\n"),
           (["link"], .symlink "sub/file.txt")] ∧
    copy_dir (some (Node.file "just a file"))
        [PathComponent.root_dir, PathComponent.normal "tmp", PathComponent.normal "dst"]
        false = .ok [([], .file "just a file")] :=
  ⟨by decide, by decide, by decide, by decide⟩

/-- C10: when the destination path has no parent component, both copy and
copy_dir panic through the expect on Path::parent; whenever the destination
has a parent, neither can panic — the recoverable-error contract covers
exactly those destinations. -/
theorem C10_parentless_destination_panics :
    (∀ (se sd : Bool) (src : Option Node) (de : Bool),
      copy se sd [PathComponent.root_dir] =
        .panicked "Destination should have a parent directory" ∧
      copy_dir src [PathComponent.root_dir] de =
        .panicked "Destination should have a parent directory") ∧
    (∀ dst : List PathComponent, path_parent dst ≠ none →
      (∀ (se sd : Bool) (msg : String), copy se sd dst ≠ .panicked msg) ∧
      (∀ (src : Option Node) (de : Bool) (msg : String),
        copy_dir src dst de ≠ .panicked msg)) := by
  constructor
  · intro se sd src de
    exact ⟨rfl, rfl⟩
  · intro dst hp
    obtain ⟨q, hq⟩ := Option.ne_none_iff_exists'.mp hp
    constructor
    · intro se sd msg
      unfold copy
      rw [hq]
      split
      · rename_i heq
        exact Option.noConfusion heq
      · split
        · simp
        · split
          · simp
          · simp
    · intro src de msg
      unfold copy_dir
      rw [hq]
      cases src with
      | none => simp
      | some n =>
        cases hrun : run_entries (if de then [([], EntryKind.dir)] else []) (walkNode n []) with
        | error m => simp [hrun]
        | ok m => simp [hrun]

theorem C10_parentless_destination_panics_witness :
    copy true false [PathComponent.root_dir, PathComponent.normal "out"] ≠
      FsOutcome.panicked "Destination should have a parent directory" :=
  (C10_parentless_destination_panics.2 [PathComponent.root_dir, PathComponent.normal "out"]
      (by decide)).1 true false "Destination should have a parent directory"

end CargoBundle

namespace CargoBundle

/-- Rust char::is_whitespace: the Unicode White_Space property — the
control characters U+0009 through U+000D, space, next line, no-break
space, the Ogham space mark, the U+2000 to U+200A spaces, the line and
paragraph separators, the narrow no-break space, the medium mathematical
space, and the ideographic space. -/
def is_rust_whitespace (c : Char) : Bool :=
  let n := c.toNat
  n = 0x20 ∨ (0x9 ≤ n ∧ n ≤ 0xD) ∨ n = 0x85 ∨ n = 0xA0 ∨ n = 0x1680 ∨
    (0x2000 ≤ n ∧ n ≤ 0x200A) ∨ n = 0x2028 ∨ n = 0x2029 ∨ n = 0x202F ∨
    n = 0x205F ∨ n = 0x3000

/-- Rust str::trim: removes leading and trailing Unicode whitespace. -/
def rust_trim (s : String) : String :=
  ⟨((s.toList.dropWhile is_rust_whitespace).reverse.dropWhile is_rust_whitespace).reverse⟩

/-- Splitting at a given separator character, accumulating the current
segment in reverse. -/
def split_on_char (sep : Char) : List Char → List Char → List String
  | [], acc => [⟨acc.reverse⟩]
  | c :: rest, acc =>
    if c = sep then ⟨acc.reverse⟩ :: split_on_char sep rest []
    else split_on_char sep rest (c :: acc)

/-- Rust str::lines on an already-trimmed string (no trailing newline
remains after the trim the source applies first). -/
def split_lines (s : String) : List String :=
  split_on_char '\n' s.toList []

/-- Modelled from the spec: the read-only settings record the Debian
bundler consumes (the accessor bodies of settings.rs are not under src/);
the fields follow the spec's data-model section. -/
structure Settings where
  binary_name : String
  bundle_name : String
  version_string : String
  binary_arch : String
  authors_comma_separated : Option String
  homepage_url : String
  debian_dependencies : List String
  short_description : String
  long_description : Option String

/-- The architecture mapping at the top of bundle_project in
deb_bundle.rs. -/
def debian_arch (a : String) : String :=
  if a = "x86" then "i386"
  else if a = "x86_64" then "amd64"
  else if a = "arm" then "armhf"
  else if a = "aarch64" then "arm64"
  else a

/-- The Installed-Size computation of generate_control_file: total payload
byte size over 1024, rounded up, written (size + 1023) / 1024. -/
def installed_size (total_bytes : Nat) : Nat :=
  (total_bytes + 1023) / 1024

/-- Rust str::replace(bundle_name, space, hyphen) followed by
to_ascii_lowercase — the Package field sanitization. -/
def sanitize_package_name (name : String) : String :=
  ⟨(name.toList.map (fun c => if c = ' ' then '-' else c)).map to_ascii_lower_char⟩

/-- The description block of the control file: placeholder for blank short
or long descriptions, every long-description line trimmed and re-indented
with one leading space, blank lines becoming the dot marker line. -/
def description_lines (short_description : String) (long_description : Option String) :
    List String :=
  let short0 := rust_trim short_description
  let short := if short0 = "" then "(none)" else short0
  let long0 := rust_trim (long_description.getD "")
  let long := if long0 = "" then "(none)" else long0
  ("Description: " ++ short) ::
    (split_lines long).map (fun line =>
      let t := rust_trim line
      if t = "" then " ." else " " ++ t)

/-- generate_control_file from deb_bundle.rs, as the sequence of lines the
source passes to writeln: package, version, architecture, installed size,
maintainer, optional homepage, optional dependencies, description block. -/
def generate_control_file (s : Settings) (arch : String) (total_bytes : Nat) : List String :=
  ["Package: " ++ sanitize_package_name s.bundle_name,
   "Version: " ++ s.version_string,
   "Architecture: " ++ arch,
   "Installed-Size: " ++ toString (installed_size total_bytes),
   "Maintainer: " ++ s.authors_comma_separated.getD ""]
  ++ (if s.homepage_url ≠ "" then ["Homepage: " ++ s.homepage_url] else [])
  ++ (if s.debian_dependencies ≠ [] then
        ["Depends: " ++ String.intercalate ", " s.debian_dependencies] else [])
  ++ description_lines s.short_description s.long_description

/-- A member of the outer ar container: the debian-binary marker holds its
literal bytes; the two tree archives are gzipped tars of staged dirs. -/
inductive MemberData
  | literal (content : String)
  | tree_archive (dir_name : String)
  deriving DecidableEq, Repr

/-- One ar member: stored basename plus its data. -/
structure ArchiveMember where
  name : String
  data : MemberData
  deriving DecidableEq, Repr

/-- Modelled from the spec: tar_and_gzip_dir (bundle/linux/mod.rs, not
under src/) serializes a staged directory and yields the directory path
with the fixed ".tar.gz" suffix appended; ar members are stored under
their basename. -/
def tar_and_gzip_name (dir_name : String) : String :=
  dir_name ++ ".tar.gz"

/-- The produced Debian package artifact: its file name, its control file
(as written lines), and the ar members in their stored order. -/
structure DebPackage where
  package_name : String
  control_lines : List String
  members : List ArchiveMember
  deriving DecidableEq, Repr

/-- bundle_project from deb_bundle.rs: maps the architecture token, forms
the artifact name, renders the control file, stages debian-binary with
literal content, and passes the three members to create_archive in exactly
the order debian-binary, control.tar.gz, data.tar.gz. -/
def bundle_project (s : Settings) (total_payload_bytes : Nat) : DebPackage :=
  let arch := debian_arch s.binary_arch
  let package_base_name := s.binary_name ++ "_" ++ s.version_string ++ "_" ++ arch
  { package_name := package_base_name ++ ".deb"
    control_lines := generate_control_file s arch total_payload_bytes
    members :=
      [⟨"debian-binary", .literal "2.0\n"⟩,
       ⟨tar_and_gzip_name "control", .tree_archive "control"⟩,
       ⟨tar_and_gzip_name "data", .tree_archive "data"⟩] }

/-- The concrete settings record of the end-to-end scenario. -/
def fooSettings : Settings :=
  { binary_name := "foo"
    bundle_name := "foo"
    version_string := "1.2.3"
    binary_arch := "x86_64"
    authors_comma_separated := some "Jane Doe"
    homepage_url := ""
    debian_dependencies := []
    short_description := "An app"
    long_description := none }

end CargoBundle

namespace CargoBundle

theorem description_lines_subset (s : Settings) (arch : String) (n : Nat) :
    ∀ x ∈ description_lines s.short_description s.long_description,
      x ∈ generate_control_file s arch n := by
  intro x hx
  unfold generate_control_file
  exact List.mem_append_right _ hx

/-- C1: assembling the Debian package for a settings record naming binary
foo, version 1.2.3, architecture x86_64 yields a single container whose
members are exactly debian-binary with literal content followed by the two
gzipped tree archives, whose control file carries the Package, Version and
Architecture lines, the architecture mapped through the fixed table. -/
theorem C1_deb_assembly (s : Settings) (n : Nat)
    (hbin : s.binary_name = "foo") (hbn : s.bundle_name = "foo")
    (hv : s.version_string = "1.2.3") (ha : s.binary_arch = "x86_64") :
    (bundle_project s n).members =
      [⟨"debian-binary", MemberData.literal "2.0\n"⟩,
       ⟨"control.tar.gz", MemberData.tree_archive "control"⟩,
       ⟨"data.tar.gz", MemberData.tree_archive "data"⟩] ∧
    (bundle_project s n).package_name = "foo_1.2.3_amd64.deb" ∧
    "Package: foo" ∈ (bundle_project s n).control_lines ∧
    "Version: 1.2.3" ∈ (bundle_project s n).control_lines ∧
    "Architecture: amd64" ∈ (bundle_project s n).control_lines ∧
    debian_arch "x86" = "i386" ∧ debian_arch "x86_64" = "amd64" ∧
    debian_arch "arm" = "armhf" ∧ debian_arch "aarch64" = "arm64" ∧
    (∀ a : String, a ≠ "x86" → a ≠ "x86_64" → a ≠ "arm" → a ≠ "aarch64" →
      debian_arch a = a) := by
  have hpkg : "Package: " ++ sanitize_package_name s.bundle_name = "Package: foo" := by
    rw [hbn]; decide
  have harch : debian_arch s.binary_arch = "amd64" := by rw [ha]; decide
  refine ⟨rfl, ?_, ?_, ?_, ?_, by decide, by decide, by decide, by decide, ?_⟩
  · show s.binary_name ++ "_" ++ s.version_string ++ "_" ++ debian_arch s.binary_arch
      ++ ".deb" = "foo_1.2.3_amd64.deb"
    rw [hbin, hv, harch]
    decide
  · show "Package: foo" ∈ generate_control_file s (debian_arch s.binary_arch) n
    unfold generate_control_file
    rw [hpkg]
    exact List.mem_append_left _ (List.mem_append_left _ (List.mem_append_left _
      (List.mem_cons_self _ _)))
  · show "Version: 1.2.3" ∈ generate_control_file s (debian_arch s.binary_arch) n
    unfold generate_control_file
    rw [hv]
    exact List.mem_append_left _ (List.mem_append_left _ (List.mem_append_left _
      (List.mem_cons_of_mem _ (List.mem_cons_self _ _))))
  · show "Architecture: amd64" ∈ generate_control_file s (debian_arch s.binary_arch) n
    unfold generate_control_file
    rw [harch]
    exact List.mem_append_left _ (List.mem_append_left _ (List.mem_append_left _
      (List.mem_cons_of_mem _ (List.mem_cons_of_mem _ (List.mem_cons_self _ _)))))
  · intro a h1 h2 h3 h4
    simp [debian_arch, h1, h2, h3, h4]

theorem C1_deb_assembly_witness :
    (bundle_project fooSettings 4096).package_name = "foo_1.2.3_amd64.deb" :=
  (C1_deb_assembly fooSettings 4096 rfl rfl rfl rfl).2.1

/-- C7: the Installed-Size field is the ceiling of the payload byte size
over 1024: it equals the rational ceiling for every size, and the control
file shows 1 for a 1-byte payload, 1 for exactly 1024 bytes, 2 for 1025. -/
theorem C7_installed_size_is_ceiling :
    (∀ n : Nat, (installed_size n : ℤ) = Int.ceil ((n : ℚ) / 1024)) ∧
    (∀ (s : Settings) (arch : String),
      "Installed-Size: 1" ∈ generate_control_file s arch 1 ∧
      "Installed-Size: 1" ∈ generate_control_file s arch 1024 ∧
      "Installed-Size: 2" ∈ generate_control_file s arch 1025) := by
  constructor
  · intro n
    have h1 : n ≤ 1024 * installed_size n := by unfold installed_size; omega
    have h2 : 1024 * installed_size n < n + 1024 := by unfold installed_size; omega
    have h1q : (n : ℚ) ≤ 1024 * (installed_size n : ℚ) := by exact_mod_cast h1
    have h2q : 1024 * (installed_size n : ℚ) < (n : ℚ) + 1024 := by exact_mod_cast h2
    have hcast : (((installed_size n : ℤ)) : ℚ) = (installed_size n : ℚ) := by
      exact_mod_cast rfl
    symm
    rw [Int.ceil_eq_iff]
    constructor
    · rw [hcast, lt_div_iff₀ (by norm_num : (0 : ℚ) < 1024)]
      linarith
    · rw [hcast, div_le_iff₀ (by norm_num : (0 : ℚ) < 1024)]
      linarith
  · intro s arch
    have e1 : "Installed-Size: " ++ toString (installed_size 1) = "Installed-Size: 1" := by
      decide
    have e2 : "Installed-Size: " ++ toString (installed_size 1024) = "Installed-Size: 1" := by
      decide
    have e3 : "Installed-Size: " ++ toString (installed_size 1025) = "Installed-Size: 2" := by
      decide
    refine ⟨?_, ?_, ?_⟩
    all_goals
      unfold generate_control_file
      first
        | rw [e1] | rw [e2] | rw [e3]
    all_goals
      exact List.mem_append_left _ (List.mem_append_left _ (List.mem_append_left _
        (List.mem_cons_of_mem _ (List.mem_cons_of_mem _ (List.mem_cons_of_mem _
          (List.mem_cons_self _ _))))))

end CargoBundle

namespace CargoBundle

/-- Settings with a whitespace-only short description and a long
description containing an interior blank line, to exercise the
description-block rendering. -/
def blankSettings : Settings :=
  { binary_name := "foo"
    bundle_name := "foo"
    version_string := "0.1.0"
    binary_arch := "x86_64"
    authors_comma_separated := none
    homepage_url := ""
    debian_dependencies := []
    short_description := "   "
    long_description := some "line one\n\nline two" }

/-- C8: a blank short description renders as the placeholder line; a blank
long description renders as the placeholder, re-indented, as the final
control line; in a non-blank long description every blank line appears as
the dot marker line and every non-blank line appears trimmed with one
leading space. -/
theorem C8_description_rendering (s : Settings) (arch : String) (n : Nat) :
    (rust_trim s.short_description = "" →
      "Description: (none)" ∈ generate_control_file s arch n) ∧
    (rust_trim ((s.long_description).getD "") = "" →
      (generate_control_file s arch n).getLast? = some " (none)") ∧
    (rust_trim ((s.long_description).getD "") ≠ "" →
      ∀ line ∈ split_lines (rust_trim ((s.long_description).getD "")),
        (rust_trim line = "" → " ." ∈ generate_control_file s arch n) ∧
        (rust_trim line ≠ "" →
          " " ++ rust_trim line ∈ generate_control_file s arch n)) := by
  refine ⟨?_, ?_, ?_⟩
  · intro hb
    apply description_lines_subset s arch n
    simp only [description_lines]
    rw [hb]
    exact List.mem_cons.mpr (Or.inl (by decide))
  · intro hb
    have hne : description_lines s.short_description s.long_description ≠ [] := by
      simp only [description_lines]
      exact List.cons_ne_nil _ _
    unfold generate_control_file
    rw [List.getLast?_append_of_ne_nil _ hne]
    simp only [description_lines]
    rw [hb, if_pos rfl]
    have hmap : (split_lines "(none)").map (fun line =>
        let t := rust_trim line
        if t = "" then " ." else " " ++ t) = [" (none)"] := by decide
    rw [hmap]
    rfl
  · intro hnb line hline
    have hmem : ∀ x ∈ (split_lines (rust_trim ((s.long_description).getD ""))).map
        (fun l2 => let t := rust_trim l2; if t = "" then " ." else " " ++ t),
        x ∈ generate_control_file s arch n := by
      intro x hx
      apply description_lines_subset s arch n
      simp only [description_lines]
      rw [if_neg hnb]
      exact List.mem_cons_of_mem _ hx
    constructor
    · intro hb
      have hx := hmem _ (List.mem_map_of_mem _ hline)
      simpa [hb] using hx
    · intro hb
      have hx := hmem _ (List.mem_map_of_mem _ hline)
      simpa [hb] using hx

theorem C8_description_rendering_witness :
    "Description: (none)" ∈ generate_control_file blankSettings "amd64" 0 :=
  (C8_description_rendering blankSettings "amd64" 0).1 (by decide)

end CargoBundle
